import Mathlib

/-!
Shallow embedding of `pyfftw/builders/_utils.py`: the axis/shape normalizer
(`_cook_nd_args`), the shape resolver (`_compute_array_shapes`), the slicer
builder (`_setup_input_slicers`), the adapter constructor (`_Xfftn`) and the
call method of `_FFTWWrapper`.  Shapes and sizes are lists of integers;
Python list indexing (negative indices, IndexError) is made explicit through
`pyIdx`/`pyGet`/`pySet`; fallible code returns `Option`/`Except`.
-/

/-- Resolve a Python index `i` against a list of length `len`:
nonnegative indices must be `< len`, negative indices count from the end
(`len + i`), out-of-range indices give `none` (Python `IndexError`). -/
def pyIdx (len : Nat) (i : Int) : Option Nat :=
  if 0 ≤ i then
    (if i < (len : Int) then some i.toNat else none)
  else
    (if 0 ≤ (len : Int) + i then some ((len : Int) + i).toNat else none)

/-- Python `l[i]` on a list of integers. -/
def pyGet (l : List Int) (i : Int) : Option Int :=
  (pyIdx l.length i).bind (fun j => l[j]?)

/-- Python `l[i] = v` on a list of integers, returning the updated list. -/
def pySet (l : List Int) (i : Int) (v : Int) : Option (List Int) :=
  (pyIdx l.length i).map (fun j => l.set j v)

/-- The loop `for n, axis in enumerate(axes): orig[axis] = s[n]; fft[axis] = s[n]`
from `_compute_array_shapes`, with `n` starting at the given value.  Any
IndexError (from `s[n]` or from the assignments) aborts with `none`. -/
def assignShapes : List Int → List Int → List Int → List Int → Nat →
    Option (List Int × List Int)
  | orig, fft, _, [], _ => some (orig, fft)
  | orig, fft, s, axis :: rest, n => do
    let sn ← pyGet s (n : Int)
    let orig2 ← pySet orig axis sn
    let fft2 ← pySet fft axis sn
    assignShapes orig2 fft2 s rest (n + 1)

/-- Model of `_compute_array_shapes(a, s, axes, inverse, real)` from the source:
start with two copies of `a.shape`, assign `s[n]` at each listed axis in both,
for a real transform overwrite the transform-domain entry at the last listed
axis with `s[-1]//2 + 1`, then return `(input_shape, output_shape)`, swapping
the two domains when `inverse`.  `none` models the raised IndexError
(`'Invalid axes'`). -/
def _compute_array_shapes (aShape s axes : List Int) (inverse real : Bool) :
    Option (List Int × List Int) := do
  let (orig, fft) ← assignShapes aShape aShape s axes 0
  let fft2 ←
    if real then do
      let sLast ← pyGet s (-1)
      let lastAx ← pyGet axes (-1)
      pySet fft lastAx (Int.fdiv sLast 2 + 1)
    else
      pure fft
  if inverse then
    pure (fft2, orig)
  else
    pure (orig, fft2)

/-- Python `range(-k, 0)`: the last `k` axes as negative indices. -/
def rangeNeg (k : Nat) : List Int :=
  (List.range k).map (fun i : Nat => (i : Int) - (k : Int))

/-- Model of `numpy.take(shape, axes)`: index `shape` at every element of `axes`
(negative indices count from the end), failing with `none` (IndexError) if
any index is out of range. -/
def npTake (shape : List Int) : List Int → Option (List Int)
  | [] => some []
  | ax :: rest => do
    let v ← pyGet shape ax
    let t ← npTake shape rest
    pure (v :: t)

/-- The two error kinds `_cook_nd_args` can raise: `ValueError` for the two
shape checks, `IndexError` from indexing during the defaulting of `s`. -/
inductive CookError
  | shapeError
  | axisError
deriving DecidableEq, Repr

/-- Model of `_cook_nd_args(a, s, axes, invreal)` from the source: default absent
`axes` to `range(-len_s, 0)`; default absent `s` to
`list(numpy.take(a.shape, axes))`, overriding `s[-1]` with
`(a.shape[axes[-1]] - 1) * 2` when `invreal`; then validate
`len(s) == len(axes)` and `len(s) <= len(a.shape)`. -/
def _cook_nd_args (aShape : List Int) (s? axes? : Option (List Int))
    (invreal : Bool) : Except CookError (List Int × List Int) := do
  let axes := match axes?, s? with
    | some ax, _ => ax
    | none, some s0 => rangeNeg s0.length
    | none, none => rangeNeg aShape.length
  let s ← match s? with
    | some s0 => pure s0
    | none =>
      match npTake aShape axes with
      | none => throw CookError.axisError
      | some t =>
        if invreal then
          match pyGet axes (-1) with
          | none => throw CookError.axisError
          | some lastAx =>
            match pyGet aShape lastAx with
            | none => throw CookError.axisError
            | some v =>
              match pySet t (-1) ((v - 1) * 2) with
              | none => throw CookError.axisError
              | some t2 => pure t2
        else
          pure t
  if s.length ≠ axes.length then
    throw CookError.shapeError
  else if s.length > aShape.length then
    throw CookError.shapeError
  else
    pure (s, axes)

/-- A per-axis slice: `Slice.all` is Python `slice(None)`,
`Slice.interval lo hi` is Python `slice(lo, hi)` (unit step). -/
inductive Slice
  | all
  | interval (lo hi : Int)
deriving DecidableEq, Repr

/-- Clamp a Python slice endpoint against an axis of length `m`
(unit step): negative endpoints count from the end, everything is
clamped into `[0, m]`. -/
def clampIdx (x : Int) (m : Int) : Int :=
  if x < 0 then max (m + x) 0 else min x m

/-- The `(start, stop)` pair a slice denotes on an axis of length `m`. -/
def sliceBounds : Slice → Int → Int × Int
  | Slice.all, m => (0, m)
  | Slice.interval lo hi, m => (clampIdx lo m, clampIdx hi m)

/-- The number of indices a slice selects on an axis of length `m`. -/
def sliceExtent (sl : Slice) (m : Int) : Int :=
  max 0 ((sliceBounds sl m).2 - (sliceBounds sl m).1)

/-- Model of `_setup_input_slicers(a_shape, input_shape)` from the source: per axis,
`a_shape[axis] > input_shape[axis]` truncates the source
(`slice(0, input_shape[axis])`, dest stays `slice(None)`);
`a_shape[axis] < input_shape[axis]` bounds both to `slice(0, a_shape[axis])`;
equal axes get source `slice(0, a_shape[axis])`, dest stays `slice(None)`.
Returns `(update_input_array_slicer, FFTW_array_slicer)`; `none` models the
IndexError when `input_shape` is shorter than `a_shape`. -/
def _setup_input_slicers : List Int → List Int → Option (List Slice × List Slice)
  | [], _ => some ([], [])
  | _ :: _, [] => none
  | a :: as0, b :: bs => do
    let (src, dst) ← _setup_input_slicers as0 bs
    if a > b then
      pure (Slice.interval 0 b :: src, Slice.all :: dst)
    else if a < b then
      pure (Slice.interval 0 a :: src, Slice.interval 0 a :: dst)
    else
      pure (Slice.interval 0 a :: src, Slice.all :: dst)

/-- The fixed set of valid planner efforts (`_valid_efforts`). -/
def _valid_efforts : List String :=
  ["FFTW_ESTIMATE", "FFTW_MEASURE", "FFTW_PATIENT", "FFTW_EXHAUSTIVE"]

/-- Errors `_Xfftn` can raise: the `ValueError` for a bad planner effort,
the two `_cook_nd_args` errors, the `IndexError` of `_compute_array_shapes`,
and the `NameError` from reading the never-assigned `a_copy` on the
matched-shape path when `avoid_copy` is set. -/
inductive XfftnError
  | configError
  | shapeError
  | axisError
  | nameError
deriving DecidableEq, Repr

/-- Side effects of `_Xfftn`, in program order: taking the snapshot
`a_copy = a.copy()`, the two `n_byte_align_empty` buffer allocations,
constructing the FFTW plan object, the matched-path copy-back
`get_input_array()[:] = a_copy`, and the mismatched-path zero-and-copy-in. -/
inductive XEvent
  | snapshotTaken
  | allocOutput
  | allocInput
  | buildPlan
  | copyBack
  | zeroCopyIn
deriving DecidableEq, Repr

/-- The record `_Xfftn` returns about the constructed object: whether it is
a `_FFTWWrapper` (mismatched-shape path) or a plain `pyfftw.FFTW`
(matched-shape path), and the resolved shapes and cooked arguments. -/
structure XfftnPlan where
  usedWrapper : Bool
  inputShape : List Int
  outputShape : List Int
  sizes : List Int
  axes : List Int
deriving DecidableEq, Repr

/-- Model of `_Xfftn(a, s, axes, planner_effort, threads, auto_align_input,
avoid_copy, inverse, real)` from the source, tracking its side effects in
program order together with its result.  Dtype coercion (lines between the
shape resolution and the snapshot) never fails and allocates no buffer, so
it contributes nothing here.  On the matched-shape path the copy-back
`FFTW_object.get_input_array()[:] = a_copy` is unguarded in the source, so
with `avoid_copy` the name `a_copy` is unbound and a `NameError`
(`UnboundLocalError`) is raised after the plan is built. -/
def _Xfftn (aShape : List Int) (s? axes? : Option (List Int))
    (plannerEffort : String) (autoAlignInput avoidCopy inverse real : Bool) :
    List XEvent × Except XfftnError XfftnPlan :=
  if plannerEffort ∈ _valid_efforts then
    match _cook_nd_args aShape s? axes? (inverse && real) with
    | Except.error CookError.shapeError => ([], Except.error XfftnError.shapeError)
    | Except.error CookError.axisError => ([], Except.error XfftnError.axisError)
    | Except.ok (s, axes) =>
      match _compute_array_shapes aShape s axes inverse real with
      | none => ([], Except.error XfftnError.axisError)
      | some (inputShape, outputShape) =>
        let ev0 := if avoidCopy then [] else [XEvent.snapshotTaken]
        let ev1 := ev0 ++ [XEvent.allocOutput]
        if aShape ≠ inputShape then
          match _setup_input_slicers aShape inputShape with
          | none => (ev1, Except.error XfftnError.axisError)
          | some _ =>
            let ev2 := ev1 ++ [XEvent.allocInput, XEvent.buildPlan]
            if avoidCopy then
              (ev2, Except.ok ⟨true, inputShape, outputShape, s, axes⟩)
            else
              (ev2 ++ [XEvent.zeroCopyIn],
               Except.ok ⟨true, inputShape, outputShape, s, axes⟩)
        else
          let ev2 := ev1 ++ [XEvent.buildPlan]
          if avoidCopy then
            (ev2, Except.error XfftnError.nameError)
          else
            (ev2 ++ [XEvent.copyBack],
             Except.ok ⟨false, inputShape, outputShape, s, axes⟩)
  else
    ([], Except.error XfftnError.configError)

/-- An N-dimensional array: a shape and the value at each multi-index. -/
structure NDArray where
  shape : List Int
  data : List Int → Int

/-- Pad a slicer tuple to the rank of the indexed array: numpy leaves the
remaining axes fully selected. -/
def padSlicers (slicers : List Slice) (rank : Nat) : List Slice :=
  slicers ++ List.replicate (rank - slicers.length) Slice.all

/-- The per-axis `(start, stop)` bounds a slicer tuple selects on an array
of the given shape. -/
def slicerRegion (slicers : List Slice) (shape : List Int) : List (Int × Int) :=
  List.zipWith sliceBounds (padSlicers slicers shape.length) shape

/-- Numpy basic slicing `arr[slicers]`.  Fails (IndexError) when there are
more slice objects than axes; otherwise yields the view whose axis `i` has
extent `stop_i - start_i` and whose entry at relative index `idx` is the
base entry at `start + idx`. -/
def applySlicers (slicers : List Slice) (arr : NDArray) : Option NDArray :=
  if arr.shape.length < slicers.length then
    none
  else
    let bounds := slicerRegion slicers arr.shape
    some { shape := bounds.map (fun b => max 0 (b.2 - b.1)),
           data := fun idx =>
             arr.data (List.zipWith (fun (b : Int × Int) i => b.1 + i) bounds idx) }

/-- Whether a multi-index lies inside a per-axis bounds region. -/
def inRegion (bounds : List (Int × Int)) (idx : List Int) : Bool :=
  idx.length == bounds.length &&
    (List.zip idx bounds).all (fun p => decide (p.2.1 ≤ p.1) && decide (p.1 < p.2.2))

/-- The sliced assignment `dst[dstSl] = src[srcSl]` of equal-shaped views:
entries of `dst` inside the dest region take the corresponding (per-axis
offset-translated) entries of `src`'s source region; all other entries of
`dst` are untouched. -/
def copySliced (dst : NDArray) (dstSl : List Slice) (src : NDArray)
    (srcSl : List Slice) : NDArray :=
  let db := slicerRegion dstSl dst.shape
  let sb := slicerRegion srcSl src.shape
  { shape := dst.shape,
    data := fun idx =>
      if inRegion db idx then
        src.data (List.zipWith (fun (p : (Int × Int) × (Int × Int)) (i : Int) =>
          p.2.1 + (i - p.1.1)) (List.zip db sb) idx)
      else
        dst.data idx }

/-- The state a `_FFTWWrapper` instance owns: its internal input array and
the two slicers popped from the constructor kwargs. -/
structure WrapperState where
  internalInput : NDArray
  inputArraySlicer : List Slice
  fftwArraySlicer : List Slice

/-- What `_FFTWWrapper.__call__` hands to the engine layer
(`pyfftw.FFTW.__call__`): the forwarded `input_array` argument (always
`None` in the source), the forwarded `output_array`, and the
`normalise_idft` flag. -/
structure EngineCall where
  forwardedInput : Option NDArray
  outputArg : Option NDArray
  normaliseIdft : Bool

/-- Errors `_FFTWWrapper.__call__` can raise while updating the input:
the `ValueError('Invalid input shape: ...')` when the two sliced views
disagree in shape, or an IndexError from slicing itself. -/
inductive CallError
  | invalidInputShape
  | indexError
deriving DecidableEq, Repr

/-- Model of `_FFTWWrapper.__call__(input_array, output_array, normalise_idft)` from
the source: with no new input, delegate directly; with a new input, slice
the internal array with `FFTW_array_slicer` and the new input with
`input_array_slicer`, raise `ValueError` if the sliced shapes disagree
(before any element is copied), otherwise perform the sliced copy and then
delegate with `input_array=None`.  Returns the (possibly updated) state
together with the delegated engine call or the raised error. -/
def wrapperCall (st : WrapperState) (inputArr outputArr : Option NDArray)
    (normaliseIdft : Bool) : WrapperState × Except CallError EngineCall :=
  match inputArr with
  | none => (st, Except.ok ⟨none, outputArr, normaliseIdft⟩)
  | some inp =>
    match applySlicers st.fftwArraySlicer st.internalInput,
          applySlicers st.inputArraySlicer inp with
    | some slicedInternal, some slicedInput =>
      if slicedInternal.shape ≠ slicedInput.shape then
        (st, Except.error CallError.invalidInputShape)
      else
        ({ st with internalInput :=
             copySliced st.internalInput st.fftwArraySlicer inp st.inputArraySlicer },
         Except.ok ⟨none, outputArr, normaliseIdft⟩)
    | _, _ => (st, Except.error CallError.indexError)

theorem pyIdx_lt {len : Nat} {i : Int} {p : Nat} (h : pyIdx len i = some p) :
    p < len := by
  unfold pyIdx at h
  split at h
  · split at h
    · injection h with h; omega
    · cases h
  · split at h
    · injection h with h; omega
    · cases h

theorem pyIdx_ofNat {len n : Nat} (h : n < len) : pyIdx len (n : Int) = some n := by
  unfold pyIdx
  rw [if_pos (by omega), if_pos (by omega)]
  simp

theorem pyIdx_negIdx {len : Nat} {i : Int} (h1 : i < 0) (h2 : 0 ≤ (len : Int) + i) :
    pyIdx len i = some ((len : Int) + i).toNat := by
  unfold pyIdx
  rw [if_neg (by omega), if_pos h2]

theorem pyIdx_isSome_iff {len : Nat} {i : Int} :
    (pyIdx len i).isSome ↔ (-(len : Int) ≤ i ∧ i < (len : Int)) := by
  unfold pyIdx
  split <;> split <;> simp <;> omega

theorem pyGet_of_pyIdx {l : List Int} {i : Int} {p : Nat}
    (h : pyIdx l.length i = some p) : pyGet l i = l[p]? := by
  simp [pyGet, h]

theorem pyGet_isSome {l : List Int} {i : Int} {p : Nat}
    (h : pyIdx l.length i = some p) : ∃ v, pyGet l i = some v := by
  have hp := pyIdx_lt h
  refine ⟨l.get ⟨p, hp⟩, ?_⟩
  rw [pyGet_of_pyIdx h]
  simp [List.getElem?_eq_getElem hp, List.get_eq_getElem]

theorem pySet_of_pyIdx {l : List Int} {i : Int} {p : Nat} (v : Int)
    (h : pyIdx l.length i = some p) : pySet l i v = some (l.set p v) := by
  simp [pySet, h]

theorem pySet_some_inv {l l' : List Int} {i : Int} {v : Int}
    (h : pySet l i v = some l') :
    ∃ p, pyIdx l.length i = some p ∧ l' = l.set p v := by
  cases hp : pyIdx l.length i with
  | none => simp [pySet, hp] at h
  | some p =>
    refine ⟨p, rfl, ?_⟩
    simp [pySet, hp] at h
    exact h.symm

theorem pySet_length {l l' : List Int} {i : Int} {v : Int}
    (h : pySet l i v = some l') : l'.length = l.length := by
  obtain ⟨p, -, rfl⟩ := pySet_some_inv h
  exact List.length_set l p v

theorem assignShapes_length : ∀ {axes : List Int} {orig fft s : List Int}
    {n : Nat} {o f : List Int},
    assignShapes orig fft s axes n = some (o, f) →
    o.length = orig.length ∧ f.length = fft.length := by
  intro axes
  induction axes with
  | nil =>
    intro orig fft s n o f h
    simp [assignShapes] at h
    obtain ⟨rfl, rfl⟩ := h
    exact ⟨rfl, rfl⟩
  | cons ax rest ih =>
    intro orig fft s n o f h
    cases hsn : pyGet s (n : Int) with
    | none => simp [assignShapes, hsn] at h
    | some sn =>
      cases ho2 : pySet orig ax sn with
      | none => simp [assignShapes, hsn, ho2] at h
      | some orig2 =>
        cases hf2 : pySet fft ax sn with
        | none => simp [assignShapes, hsn, ho2, hf2] at h
        | some fft2 =>
          simp only [assignShapes, hsn, ho2, hf2, Option.bind_eq_bind,
            Option.some_bind] at h
          obtain ⟨h1, h2⟩ := ih h
          exact ⟨h1.trans (pySet_length ho2), h2.trans (pySet_length hf2)⟩

theorem assignShapes_isSome : ∀ {axes : List Int} {orig fft s : List Int} {n : Nat},
    (∀ ax ∈ axes, (pyIdx orig.length ax).isSome) →
    (∀ ax ∈ axes, (pyIdx fft.length ax).isSome) →
    n + axes.length ≤ s.length →
    ∃ o f, assignShapes orig fft s axes n = some (o, f) := by
  intro axes
  induction axes with
  | nil =>
    intro orig fft s n _ _ _
    exact ⟨orig, fft, rfl⟩
  | cons ax rest ih =>
    intro orig fft s n ho hf hn
    have hsn : pyIdx s.length (n : Int) = some n := pyIdx_ofNat (by simp at hn; omega)
    obtain ⟨sn, hsn'⟩ := pyGet_isSome hsn
    obtain ⟨po, hpo⟩ := Option.isSome_iff_exists.mp (ho ax (List.mem_cons_self ax rest))
    obtain ⟨pf, hpf⟩ := Option.isSome_iff_exists.mp (hf ax (List.mem_cons_self ax rest))
    have ho2 := pySet_of_pyIdx sn hpo
    have hf2 := pySet_of_pyIdx sn hpf
    have hlen_o : (orig.set po sn).length = orig.length := List.length_set orig po sn
    have hlen_f : (fft.set pf sn).length = fft.length := List.length_set fft pf sn
    obtain ⟨o, f, hrec⟩ := @ih (orig.set po sn) (fft.set pf sn) s (n + 1)
      (fun a ha => by rw [hlen_o]; exact ho a (List.mem_cons_of_mem ax ha))
      (fun a ha => by rw [hlen_f]; exact hf a (List.mem_cons_of_mem ax ha))
      (by simp at hn ⊢; omega)
    refine ⟨o, f, ?_⟩
    simp only [assignShapes, hsn', ho2, hf2, Option.bind_eq_bind, Option.some_bind]
    exact hrec

theorem assignShapes_resolvable : ∀ {axes : List Int} {orig fft s : List Int}
    {n : Nat} {o f : List Int},
    assignShapes orig fft s axes n = some (o, f) →
    ∀ ax ∈ axes, (pyIdx orig.length ax).isSome ∧ (pyIdx fft.length ax).isSome := by
  intro axes
  induction axes with
  | nil => intro orig fft s n o f _ ax hax; cases hax
  | cons ax0 rest ih =>
    intro orig fft s n o f h ax hax
    cases hsn : pyGet s (n : Int) with
    | none => simp [assignShapes, hsn] at h
    | some sn =>
      cases ho2 : pySet orig ax0 sn with
      | none => simp [assignShapes, hsn, ho2] at h
      | some orig2 =>
        cases hf2 : pySet fft ax0 sn with
        | none => simp [assignShapes, hsn, ho2, hf2] at h
        | some fft2 =>
          simp only [assignShapes, hsn, ho2, hf2, Option.bind_eq_bind,
            Option.some_bind] at h
          rcases List.mem_cons.mp hax with rfl | hmem
          · obtain ⟨po, hpo, -⟩ := pySet_some_inv ho2
            obtain ⟨pf, hpf, -⟩ := pySet_some_inv hf2
            exact ⟨Option.isSome_iff_exists.mpr ⟨po, hpo⟩,
                   Option.isSome_iff_exists.mpr ⟨pf, hpf⟩⟩
          · have := ih h ax hmem
            rwa [pySet_length ho2, pySet_length hf2] at this

theorem assignShapes_untouched : ∀ {axes : List Int} {orig fft s : List Int}
    {n : Nat} {o f : List Int} {j : Nat},
    assignShapes orig fft s axes n = some (o, f) →
    (∀ ax ∈ axes, pyIdx orig.length ax ≠ some j) →
    (∀ ax ∈ axes, pyIdx fft.length ax ≠ some j) →
    o[j]? = orig[j]? ∧ f[j]? = fft[j]? := by
  intro axes
  induction axes with
  | nil =>
    intro orig fft s n o f j h _ _
    simp [assignShapes] at h
    obtain ⟨rfl, rfl⟩ := h
    exact ⟨rfl, rfl⟩
  | cons ax0 rest ih =>
    intro orig fft s n o f j h ho hf
    cases hsn : pyGet s (n : Int) with
    | none => simp [assignShapes, hsn] at h
    | some sn =>
      cases ho2 : pySet orig ax0 sn with
      | none => simp [assignShapes, hsn, ho2] at h
      | some orig2 =>
        cases hf2 : pySet fft ax0 sn with
        | none => simp [assignShapes, hsn, ho2, hf2] at h
        | some fft2 =>
          simp only [assignShapes, hsn, ho2, hf2, Option.bind_eq_bind,
            Option.some_bind] at h
          obtain ⟨po, hpo, rfl⟩ := pySet_some_inv ho2
          obtain ⟨pf, hpf, rfl⟩ := pySet_some_inv hf2
          have hlo : (orig.set po sn).length = orig.length := List.length_set orig po sn
          have hlf : (fft.set pf sn).length = fft.length := List.length_set fft pf sn
          have hrec := ih h
            (fun a ha => by rw [hlo]; exact ho a (List.mem_cons_of_mem ax0 ha))
            (fun a ha => by rw [hlf]; exact hf a (List.mem_cons_of_mem ax0 ha))
          have hpoj : po ≠ j := fun hc => ho ax0 (List.mem_cons_self ax0 rest) (hc ▸ hpo)
          have hpfj : pf ≠ j := fun hc => hf ax0 (List.mem_cons_self ax0 rest) (hc ▸ hpf)
          constructor
          · rw [hrec.1, List.getElem?_set_ne hpoj]
          · rw [hrec.2, List.getElem?_set_ne hpfj]

theorem getElem?_set_self_of_lt {l : List Int} {i : Nat} (h : i < l.length) (v : Int) :
    (l.set i v)[i]? = some v := by
  rw [List.getElem?_eq_getElem (by simpa using h)]
  simp [List.getElem_set_self]

theorem pyIdx_natCast_inv {len : Nat} {n q : Nat} (h : pyIdx len (n : Int) = some q) :
    q = n ∧ n < len := by
  unfold pyIdx at h
  rw [if_pos (by omega)] at h
  split at h
  · injection h with h; omega
  · cases h

theorem pyGet_natCast_some {l : List Int} {n : Nat} {v : Int}
    (h : pyGet l (n : Int) = some v) : l[n]? = some v := by
  cases hidx : pyIdx l.length (n : Int) with
  | none => rw [pyGet, hidx] at h; cases h
  | some q =>
    obtain ⟨rfl, -⟩ := pyIdx_natCast_inv hidx
    rw [pyGet, hidx] at h
    exact h

theorem assignShapes_last : ∀ {axes : List Int} {orig fft s : List Int}
    {n : Nat} {o f : List Int} {ax : Int} {p : Nat},
    assignShapes orig fft s axes n = some (o, f) →
    axes.getLast? = some ax →
    pyIdx orig.length ax = some p →
    pyIdx fft.length ax = some p →
    o[p]? = s[n + axes.length - 1]? ∧ f[p]? = s[n + axes.length - 1]? := by
  intro axes
  induction axes with
  | nil => intro orig fft s n o f ax p _ hlast _ _; cases hlast
  | cons ax0 rest ih =>
    intro orig fft s n o f ax p h hlast hpo' hpf'
    cases hsn : pyGet s (n : Int) with
    | none => simp [assignShapes, hsn] at h
    | some sn =>
      cases ho2 : pySet orig ax0 sn with
      | none => simp [assignShapes, hsn, ho2] at h
      | some orig2 =>
        cases hf2 : pySet fft ax0 sn with
        | none => simp [assignShapes, hsn, ho2, hf2] at h
        | some fft2 =>
          simp only [assignShapes, hsn, ho2, hf2, Option.bind_eq_bind,
            Option.some_bind] at h
          obtain ⟨po, hpo, rfl⟩ := pySet_some_inv ho2
          obtain ⟨pf, hpf, rfl⟩ := pySet_some_inv hf2
          have hlo : (orig.set po sn).length = orig.length := List.length_set orig po sn
          have hlf : (fft.set pf sn).length = fft.length := List.length_set fft pf sn
          cases rest with
          | nil =>
            rw [List.getLast?_singleton] at hlast
            injection hlast with hax
            subst hax
            have hpoeq : po = p := by
              rw [hpo'] at hpo
              exact (Option.some.inj hpo).symm
            have hpfeq : pf = p := by
              rw [hpf'] at hpf
              exact (Option.some.inj hpf).symm
            simp only [assignShapes] at h
            injection h with h
            injection h with h1 h2
            have hn : s[n]? = some sn := pyGet_natCast_some hsn
            have harith : n + ([ax0] : List Int).length - 1 = n := by simp
            subst hpoeq
            subst hpfeq
            rw [harith, ← h1, ← h2]
            constructor
            · rw [getElem?_set_self_of_lt (pyIdx_lt hpo) sn, hn]
            · rw [getElem?_set_self_of_lt (pyIdx_lt hpf) sn, hn]
          | cons ax1 rest1 =>
            rw [List.getLast?_cons_cons] at hlast
            have hrec := ih h hlast
              (by rw [hlo]; exact hpo') (by rw [hlf]; exact hpf')
            have harith : n + 1 + (ax1 :: rest1).length - 1
                = n + (ax0 :: ax1 :: rest1).length - 1 := by
              simp [List.length_cons]; omega
            rw [harith] at hrec
            exact hrec

theorem assignShapes_nodup_get : ∀ {axes : List Int} {orig fft s : List Int}
    {n : Nat} {o f : List Int},
    assignShapes orig fft s axes n = some (o, f) →
    (axes.map (fun ax => pyIdx orig.length ax)).Nodup →
    orig.length = fft.length →
    ∀ (k : Nat) (ax : Int) (p : Nat), axes[k]? = some ax →
      pyIdx orig.length ax = some p →
      o[p]? = s[n + k]? ∧ f[p]? = s[n + k]? := by
  intro axes
  induction axes with
  | nil => intro orig fft s n o f _ _ _ k ax p hk _; simp at hk
  | cons ax0 rest ih =>
    intro orig fft s n o f h hnodup hlen k ax p hk hp
    cases hsn : pyGet s (n : Int) with
    | none => simp [assignShapes, hsn] at h
    | some sn =>
      cases ho2 : pySet orig ax0 sn with
      | none => simp [assignShapes, hsn, ho2] at h
      | some orig2 =>
        cases hf2 : pySet fft ax0 sn with
        | none => simp [assignShapes, hsn, ho2, hf2] at h
        | some fft2 =>
          simp only [assignShapes, hsn, ho2, hf2, Option.bind_eq_bind,
            Option.some_bind] at h
          obtain ⟨po, hpo, rfl⟩ := pySet_some_inv ho2
          obtain ⟨pf, hpf, rfl⟩ := pySet_some_inv hf2
          have hlo : (orig.set po sn).length = orig.length := List.length_set orig po sn
          have hlf : (fft.set pf sn).length = fft.length := List.length_set fft pf sn
          have hpopf : po = pf := by
            rw [hlen] at hpo
            rw [hpo] at hpf
            exact Option.some.inj hpf
          rw [List.map_cons, List.nodup_cons] at hnodup
          obtain ⟨hnotmem, hnodup'⟩ := hnodup
          cases k with
          | zero =>
            simp only [List.getElem?_cons_zero] at hk
            injection hk with hax
            subst hax
            have hpeq : p = po := by
              rw [hp] at hpo
              exact (Option.some.inj hpo)
            subst hpeq
            have huntouched := assignShapes_untouched h
              (fun a ha hc => by
                apply hnotmem
                rw [hlo] at hc
                rw [hp, ← hc]
                exact List.mem_map_of_mem _ ha)
              (fun a ha hc => by
                apply hnotmem
                rw [hlf, ← hlen] at hc
                rw [hp, ← hc]
                exact List.mem_map_of_mem _ ha)
            have hn : s[n]? = some sn := pyGet_natCast_some hsn
            constructor
            · rw [huntouched.1, getElem?_set_self_of_lt (pyIdx_lt hp) sn,
                Nat.add_zero, hn]
            · rw [huntouched.2, hpopf,
                getElem?_set_self_of_lt (pyIdx_lt hpf) sn, Nat.add_zero, hn]
          | succ k1 =>
            simp only [List.getElem?_cons_succ] at hk
            have hrec := ih h
              (by rw [hlo]; exact hnodup')
              (by rw [hlo, hlf]; exact hlen)
              k1 ax p hk (by rw [hlo]; exact hp)
            have harith : n + 1 + k1 = n + (k1 + 1) := by omega
            rw [harith] at hrec
            exact hrec

theorem pyIdx_neg_one {len : Nat} (h : 0 < len) :
    pyIdx len (-1) = some (len - 1) := by
  unfold pyIdx
  rw [if_neg (by omega), if_pos (by omega)]
  congr 1
  omega

theorem pyGet_neg_one {l : List Int} (h : l ≠ []) : pyGet l (-1) = l.getLast? := by
  have hlen : 0 < l.length := List.length_pos.mpr h
  rw [pyGet, pyIdx_neg_one hlen]
  simp [List.getLast?_eq_getElem?]

theorem _compute_array_shapes_length {aShape s axes : List Int}
    {inverse real : Bool} {inp out : List Int}
    (h : _compute_array_shapes aShape s axes inverse real = some (inp, out)) :
    inp.length = aShape.length ∧ out.length = aShape.length := by
  unfold _compute_array_shapes at h
  cases hA : assignShapes aShape aShape s axes 0 with
  | none => rw [hA] at h; cases h
  | some pr =>
    obtain ⟨orig, fft⟩ := pr
    rw [hA] at h
    obtain ⟨ho, hf⟩ := assignShapes_length hA
    cases hreal : real with
    | false =>
      rw [hreal] at h
      simp only [Option.bind_eq_bind, Option.some_bind, Bool.false_eq_true,
        if_false] at h
      cases hinv : inverse with
      | false =>
        rw [hinv] at h
        simp only [Bool.false_eq_true, if_false, Option.some_bind] at h
        injection h with h
        injection h with h1 h2
        subst h1; subst h2
        exact ⟨ho, hf⟩
      | true =>
        rw [hinv] at h
        simp only [if_true, Option.some_bind] at h
        injection h with h
        injection h with h1 h2
        subst h1; subst h2
        exact ⟨hf, ho⟩
    | true =>
      rw [hreal] at h
      simp only [Option.bind_eq_bind, Option.some_bind, if_true] at h
      cases hsl : pyGet s (-1) with
      | none => rw [hsl] at h; simp at h
      | some sLast =>
        rw [hsl] at h
        simp only [Option.some_bind] at h
        cases hal : pyGet axes (-1) with
        | none => rw [hal] at h; simp at h
        | some lastAx =>
          rw [hal] at h
          simp only [Option.some_bind] at h
          cases hset : pySet fft lastAx (Int.fdiv sLast 2 + 1) with
          | none => rw [hset] at h; simp at h
          | some fft2 =>
            rw [hset] at h
            simp only [Option.some_bind] at h
            have hf2 : fft2.length = fft.length := pySet_length hset
            cases hinv : inverse with
            | false =>
              rw [hinv] at h
              simp only [Bool.false_eq_true, if_false, Option.some_bind] at h
              injection h with h
              injection h with h1 h2
              subst h1; subst h2
              exact ⟨ho, hf2.trans hf⟩
            | true =>
              rw [hinv] at h
              simp only [if_true, Option.some_bind] at h
              injection h with h
              injection h with h1 h2
              subst h1; subst h2
              exact ⟨hf2.trans hf, ho⟩

theorem _compute_array_shapes_complex {aShape s axes orig fft : List Int}
    (inverse : Bool)
    (hA : assignShapes aShape aShape s axes 0 = some (orig, fft)) :
    _compute_array_shapes aShape s axes inverse false
      = some (if inverse then (fft, orig) else (orig, fft)) := by
  unfold _compute_array_shapes
  rw [hA]
  cases inverse <;> simp

theorem _compute_array_shapes_real {aShape s axes orig fft : List Int}
    (inverse : Bool)
    (hA : assignShapes aShape aShape s axes 0 = some (orig, fft))
    {sLast lastAx : Int}
    (hsl : pyGet s (-1) = some sLast)
    (hal : pyGet axes (-1) = some lastAx)
    {fft2 : List Int}
    (hset : pySet fft lastAx (Int.fdiv sLast 2 + 1) = some fft2) :
    _compute_array_shapes aShape s axes inverse true
      = some (if inverse then (fft2, orig) else (orig, fft2)) := by
  unfold _compute_array_shapes
  rw [hA]
  cases inverse <;> simp [hsl, hal, hset]

theorem _compute_array_shapes_none_of_bad_axis {aShape s axes : List Int}
    {inverse real : Bool}
    (hbad : ∃ ax ∈ axes, pyIdx aShape.length ax = none) :
    _compute_array_shapes aShape s axes inverse real = none := by
  obtain ⟨ax, hmem, hax⟩ := hbad
  cases hA : assignShapes aShape aShape s axes 0 with
  | none => unfold _compute_array_shapes; rw [hA]; rfl
  | some pr =>
    obtain ⟨orig, fft⟩ := pr
    have := (assignShapes_resolvable hA ax hmem).1
    rw [hax] at this
    cases this

/-- Full success specification of the shape resolver, shared by several
theorems below: with `len(s) == len(axes)`, every axis resolvable and —
for a real transform — nonempty axes, `_compute_array_shapes` succeeds,
preserves the rank, leaves non-listed axes untouched and applies the
halving rule at the last listed axis of the transform-domain shape. -/
theorem resolveShapes_spec (aShape s axes : List Int) (inverse real : Bool)
    (hlen : s.length = axes.length)
    (hres : ∀ ax ∈ axes, (pyIdx aShape.length ax).isSome)
    (hne : real = true → axes ≠ []) :
    ∃ inp out, _compute_array_shapes aShape s axes inverse real = some (inp, out) ∧
      inp.length = aShape.length ∧ out.length = aShape.length ∧
      (∀ j : Nat, (∀ ax ∈ axes, pyIdx aShape.length ax ≠ some j) →
        inp[j]? = aShape[j]? ∧ out[j]? = aShape[j]?) ∧
      (real = true → ∃ lastAx lastPos sLast,
        axes.getLast? = some lastAx ∧
        pyIdx aShape.length lastAx = some lastPos ∧
        s.getLast? = some sLast ∧
        (if inverse = true then inp else out)[lastPos]? =
          some (Int.fdiv sLast 2 + 1) ∧
        (inverse = true → out[lastPos]? = some sLast)) := by
  obtain ⟨orig, fft, hA⟩ := @assignShapes_isSome axes aShape aShape s 0
    hres hres (by omega)
  obtain ⟨ho, hf⟩ := assignShapes_length hA
  cases real with
  | false =>
    have hcomp := _compute_array_shapes_complex inverse hA
    cases inverse with
    | false =>
      refine ⟨orig, fft, by simpa using hcomp, ho, hf, ?_, by simp⟩
      intro j hj
      exact assignShapes_untouched hA hj hj
    | true =>
      refine ⟨fft, orig, by simpa using hcomp, hf, ho, ?_, by simp⟩
      intro j hj
      exact (assignShapes_untouched hA hj hj).symm.imp (fun h => h) (fun h => h)
  | true =>
    have haxne : axes ≠ [] := hne rfl
    have hsne : s ≠ [] := by
      intro hc
      apply haxne
      rw [hc] at hlen
      exact List.length_eq_zero.mp hlen.symm
    obtain ⟨lastAx, hlastAx⟩ :=
      Option.isSome_iff_exists.mp (List.getLast?_isSome.mpr haxne)
    obtain ⟨sLast, hsLast⟩ :=
      Option.isSome_iff_exists.mp (List.getLast?_isSome.mpr hsne)
    have hal : pyGet axes (-1) = some lastAx := by
      rw [pyGet_neg_one haxne, hlastAx]
    have hsl : pyGet s (-1) = some sLast := by
      rw [pyGet_neg_one hsne, hsLast]
    obtain ⟨lastPos, hlastPos⟩ := Option.isSome_iff_exists.mp
      (hres lastAx (List.mem_of_mem_getLast? hlastAx))
    have hlastPosF : pyIdx fft.length lastAx = some lastPos := by
      rw [hf]; exact hlastPos
    have hset : pySet fft lastAx (Int.fdiv sLast 2 + 1)
        = some (fft.set lastPos (Int.fdiv sLast 2 + 1)) :=
      pySet_of_pyIdx _ hlastPosF
    have hcomp := _compute_array_shapes_real inverse hA hsl hal hset
    have hlastlt : lastPos < fft.length := pyIdx_lt hlastPosF
    have hfft2len : (fft.set lastPos (Int.fdiv sLast 2 + 1)).length
        = aShape.length := by
      rw [List.length_set]; exact hf
    have horigLast : orig[lastPos]? = some sLast := by
      have hlast := assignShapes_last hA hlastAx hlastPos hlastPos
      rw [hlast.1]
      rw [List.getLast?_eq_getElem?] at hsLast
      rw [Nat.zero_add, ← hlen]
      exact hsLast
    have hfft2Last : (fft.set lastPos (Int.fdiv sLast 2 + 1))[lastPos]?
        = some (Int.fdiv sLast 2 + 1) :=
      getElem?_set_self_of_lt hlastlt _
    have huntouched : ∀ j : Nat, (∀ ax ∈ axes, pyIdx aShape.length ax ≠ some j) →
        orig[j]? = aShape[j]? ∧
        (fft.set lastPos (Int.fdiv sLast 2 + 1))[j]? = aShape[j]? := by
      intro j hj
      have hbase := assignShapes_untouched hA hj hj
      have hlpj : lastPos ≠ j := by
        intro hc
        exact hj lastAx (List.mem_of_mem_getLast? hlastAx) (hc ▸ hlastPos)
      exact ⟨hbase.1, by rw [List.getElem?_set_ne hlpj]; exact hbase.2⟩
    cases inverse with
    | false =>
      refine ⟨orig, fft.set lastPos (Int.fdiv sLast 2 + 1),
        by simpa using hcomp, ho, hfft2len, huntouched, ?_⟩
      intro _
      exact ⟨lastAx, lastPos, sLast, hlastAx, hlastPos, hsLast,
        by simpa using hfft2Last, by simp⟩
    | true =>
      refine ⟨fft.set lastPos (Int.fdiv sLast 2 + 1), orig,
        by simpa using hcomp, hfft2len, ho,
        (fun j hj => ⟨(huntouched j hj).2, (huntouched j hj).1⟩), ?_⟩
      intro _
      exact ⟨lastAx, lastPos, sLast, hlastAx, hlastPos, hsLast,
        by simpa using hfft2Last, fun _ => horigLast⟩

/-- Claim C2 (amended: for a real transform the axes list must additionally be
nonempty; with `real` and empty `axes` the resolver raises an axis error, see
the counterexample).  For all valid `(array_shape, sizes, axes)` with
`len(sizes) == len(axes) <= len(array_shape)`, every axis resolvable and —
for a real transform — `axes` nonempty, `_compute_array_shapes` returns
`input_shape` and `output_shape` of the same rank as `array_shape`, agreeing
with `array_shape` on every non-listed axis; for a real transform the
transform-domain shape's entry at the last listed axis is `sizes[-1]//2 + 1`,
placed in `output_shape` when forward and in `input_shape` when inverse,
with the inverse's `output_shape` carrying the full requested size. -/
theorem C2_resolved_shapes (aShape s axes : List Int) (inverse real : Bool)
    (hlen : s.length = axes.length)
    (hle : axes.length ≤ aShape.length)
    (hres : ∀ ax ∈ axes, (pyIdx aShape.length ax).isSome)
    (hne : real = true → axes ≠ []) :
    ∃ inp out, _compute_array_shapes aShape s axes inverse real = some (inp, out) ∧
      inp.length = aShape.length ∧ out.length = aShape.length ∧
      (∀ j : Nat, (∀ ax ∈ axes, pyIdx aShape.length ax ≠ some j) →
        inp[j]? = aShape[j]? ∧ out[j]? = aShape[j]?) ∧
      (real = true → ∃ lastAx lastPos sLast,
        axes.getLast? = some lastAx ∧
        pyIdx aShape.length lastAx = some lastPos ∧
        s.getLast? = some sLast ∧
        (if inverse = true then inp else out)[lastPos]? =
          some (Int.fdiv sLast 2 + 1) ∧
        (inverse = true → out[lastPos]? = some sLast)) :=
  resolveShapes_spec aShape s axes inverse real hlen hres hne

/-- Claim C2 counterexample: `array_shape=[2]`, `sizes=[]`, `axes=[]`, forward,
real transform.  The lengths agree (`0 == 0 <= 1`) and every axis is
(vacuously) resolvable, yet the resolver raises the axis IndexError
(evaluating `axes[-1]` on an empty tuple) instead of returning shapes. -/
theorem C2_counterexample :
    ([] : List Int).length = ([] : List Int).length ∧
    ([] : List Int).length ≤ ([2] : List Int).length ∧
    (∀ ax ∈ ([] : List Int), (pyIdx ([2] : List Int).length ax).isSome) ∧
    _compute_array_shapes [2] [] [] false true = none := by
  refine ⟨rfl, by decide, ?_, by decide⟩
  intro ax hax
  cases hax

/-- Claim C2 witness: the amended theorem applied to `array_shape=[6,10]`,
`sizes=[10]`, `axes=[-1]`, forward real transform. -/
theorem C2_witness :
    (([10] : List Int).length = ([-1] : List Int).length ∧
     ([-1] : List Int).length ≤ ([6, 10] : List Int).length ∧
     (∀ ax ∈ ([-1] : List Int), (pyIdx ([6, 10] : List Int).length ax).isSome)) ∧
    (∃ inp out, _compute_array_shapes [6, 10] [10] [-1] false true
        = some (inp, out) ∧
      inp.length = ([6, 10] : List Int).length ∧
      out.length = ([6, 10] : List Int).length ∧
      (∀ j : Nat, (∀ ax ∈ ([-1] : List Int),
          pyIdx ([6, 10] : List Int).length ax ≠ some j) →
        inp[j]? = ([6, 10] : List Int)[j]? ∧ out[j]? = ([6, 10] : List Int)[j]?) ∧
      (true = true → ∃ lastAx lastPos sLast,
        ([-1] : List Int).getLast? = some lastAx ∧
        pyIdx ([6, 10] : List Int).length lastAx = some lastPos ∧
        ([10] : List Int).getLast? = some sLast ∧
        (if false = true then inp else out)[lastPos]? =
          some (Int.fdiv sLast 2 + 1) ∧
        (false = true → out[lastPos]? = some sLast))) :=
  ⟨⟨by decide, by decide, by decide⟩,
   C2_resolved_shapes [6, 10] [10] [-1] false true (by decide) (by decide)
     (by decide) (fun _ => by decide)⟩

/-- Claim C7: an axes list containing an index not resolvable against the
array's rank (`ax >= ndim` or `ax < -ndim`) makes `_compute_array_shapes`
raise the axis-validity IndexError rather than silently wrapping around,
while an axes list whose indices are all resolvable — including negative
in-range indices, which resolve from the end as `ndim + ax` — succeeds
(given the documented precondition `len(s) == len(axes)` and, as always for
a real transform, at least one listed axis). -/
theorem C7_axis_validity :
    (∀ (aShape s axes : List Int) (inverse real : Bool),
      (∃ ax ∈ axes, pyIdx aShape.length ax = none) →
      _compute_array_shapes aShape s axes inverse real = none) ∧
    (∀ (aShape s axes : List Int) (inverse real : Bool),
      s.length = axes.length →
      (∀ ax ∈ axes, (pyIdx aShape.length ax).isSome) →
      (∃ ax ∈ axes, ax < 0) →
      (∃ pr, _compute_array_shapes aShape s axes inverse real = some pr)) ∧
    (∀ (len : Nat) (ax : Int), ax < 0 → -(len : Int) ≤ ax →
      pyIdx len ax = some ((len : Int) + ax).toNat) := by
  refine ⟨?_, ?_, ?_⟩
  · intro aShape s axes inverse real hbad
    exact _compute_array_shapes_none_of_bad_axis hbad
  · intro aShape s axes inverse real hlen hres hneg
    have hne : axes ≠ [] := by
      obtain ⟨ax, hmem, -⟩ := hneg
      intro hc
      rw [hc] at hmem
      cases hmem
    obtain ⟨inp, out, hcomp, -⟩ :=
      resolveShapes_spec aShape s axes inverse real hlen hres (fun _ => hne)
    exact ⟨(inp, out), hcomp⟩
  · intro len ax h1 h2
    exact pyIdx_negIdx h1 (by omega)

theorem rangeNeg_length (k : Nat) : (rangeNeg k).length = k := by
  unfold rangeNeg
  rw [List.length_map, List.length_range]

theorem rangeNeg_getElem (k : Nat) (i : Nat) (h : i < k) :
    (rangeNeg k)[i]? = some ((i : Int) - (k : Int)) := by
  unfold rangeNeg
  rw [List.getElem?_map, List.getElem?_range h]
  rfl

theorem rangeNeg_resolvable {k len : Nat} (hk : k ≤ len) :
    ∀ ax ∈ rangeNeg k, (pyIdx len ax).isSome := by
  intro ax hax
  simp only [rangeNeg, List.mem_map, List.mem_range] at hax
  obtain ⟨i, hi, rfl⟩ := hax
  rw [pyIdx_isSome_iff]
  constructor
  · omega
  · omega

theorem npTake_some_spec : ∀ {axes : List Int} {shape t : List Int},
    npTake shape axes = some t →
    t.length = axes.length ∧
    (∀ (k : Nat) (ax : Int), axes[k]? = some ax → t[k]? = pyGet shape ax) ∧
    (∀ ax ∈ axes, ∃ v, pyGet shape ax = some v) := by
  intro axes
  induction axes with
  | nil =>
    intro shape t h
    simp only [npTake] at h
    injection h with h
    subst h
    refine ⟨rfl, ?_, ?_⟩
    · intro k ax hk; simp at hk
    · intro ax hax; cases hax
  | cons ax0 rest ih =>
    intro shape t h
    cases hv : pyGet shape ax0 with
    | none => simp only [npTake, hv, Option.none_bind] at h; cases h
    | some v =>
      simp only [npTake, hv, Option.bind_eq_bind, Option.some_bind] at h
      cases ht : npTake shape rest with
      | none => rw [ht] at h; cases h
      | some t0 =>
        rw [ht] at h
        simp only [Option.some_bind] at h
        injection h with h
        subst h
        obtain ⟨hl, hg, hr⟩ := ih ht
        refine ⟨by simp [hl], ?_, ?_⟩
        · intro k ax hk
          cases k with
          | zero =>
            simp only [List.getElem?_cons_zero] at hk ⊢
            injection hk with hk
            subst hk
            exact hv.symm
          | succ k1 =>
            simp only [List.getElem?_cons_succ] at hk ⊢
            exact hg k1 ax hk
        · intro ax hax
          rcases List.mem_cons.mp hax with rfl | hmem
          · exact ⟨v, hv⟩
          · exact hr ax hmem

theorem npTake_isSome : ∀ {axes : List Int} {shape : List Int},
    (∀ ax ∈ axes, (pyIdx shape.length ax).isSome) →
    ∃ t, npTake shape axes = some t := by
  intro axes
  induction axes with
  | nil => intro shape _; exact ⟨[], rfl⟩
  | cons ax0 rest ih =>
    intro shape hres
    obtain ⟨p, hp⟩ := Option.isSome_iff_exists.mp
      (hres ax0 (List.mem_cons_self ax0 rest))
    obtain ⟨v, hv⟩ := pyGet_isSome hp
    obtain ⟨t, ht⟩ := ih (fun a ha => hres a (List.mem_cons_of_mem ax0 ha))
    refine ⟨v :: t, ?_⟩
    simp only [npTake, hv, ht, Option.bind_eq_bind, Option.some_bind]
    rfl

theorem cook_s_given (aShape s0 axes0 : List Int) (invreal : Bool) :
    _cook_nd_args aShape (some s0) (some axes0) invreal =
      (if s0.length ≠ axes0.length then Except.error CookError.shapeError
       else if s0.length > aShape.length then Except.error CookError.shapeError
       else Except.ok (s0, axes0)) := rfl

theorem cook_s_given_noaxes (aShape s0 : List Int) (invreal : Bool) :
    _cook_nd_args aShape (some s0) none invreal =
      (if s0.length ≠ (rangeNeg s0.length).length then
        Except.error CookError.shapeError
       else if s0.length > aShape.length then Except.error CookError.shapeError
       else Except.ok (s0, rangeNeg s0.length)) := rfl

theorem cook_s_none_eq (aShape axes0 : List Int) (invreal : Bool) :
    _cook_nd_args aShape none (some axes0) invreal = (do
      let s ← match npTake aShape axes0 with
        | none => throw CookError.axisError
        | some t =>
          if invreal then
            match pyGet axes0 (-1) with
            | none => throw CookError.axisError
            | some lastAx =>
              match pyGet aShape lastAx with
              | none => throw CookError.axisError
              | some v =>
                match pySet t (-1) ((v - 1) * 2) with
                | none => throw CookError.axisError
                | some t2 => pure t2
          else
            pure t
      if s.length ≠ axes0.length then
        throw CookError.shapeError
      else if s.length > aShape.length then
        throw CookError.shapeError
      else
        pure (s, axes0) : Except CookError (List Int × List Int)) := rfl

theorem cook_none_none_eq (aShape : List Int) (invreal : Bool) :
    _cook_nd_args aShape none none invreal
      = _cook_nd_args aShape none (some (rangeNeg aShape.length)) invreal := rfl

theorem cook_take_none {aShape axes0 : List Int} (invreal : Bool)
    (h : npTake aShape axes0 = none) :
    _cook_nd_args aShape none (some axes0) invreal
      = Except.error CookError.axisError := by
  rw [cook_s_none_eq, h]
  rfl

theorem cook_invreal_al_none {aShape axes0 t : List Int}
    (htake : npTake aShape axes0 = some t)
    (hal : pyGet axes0 (-1) = none) :
    _cook_nd_args aShape none (some axes0) true
      = Except.error CookError.axisError := by
  rw [cook_s_none_eq, htake]
  simp only [if_true, hal]
  rfl

theorem cook_invreal_v_none {aShape axes0 t : List Int} {lastAx : Int}
    (htake : npTake aShape axes0 = some t)
    (hal : pyGet axes0 (-1) = some lastAx)
    (hv : pyGet aShape lastAx = none) :
    _cook_nd_args aShape none (some axes0) true
      = Except.error CookError.axisError := by
  rw [cook_s_none_eq, htake]
  simp only [if_true, hal, hv]
  rfl

theorem cook_none_axes_eval {aShape axes0 t : List Int}
    (htake : npTake aShape axes0 = some t) :
    _cook_nd_args aShape none (some axes0) false =
      (if t.length ≠ axes0.length then Except.error CookError.shapeError
       else if t.length > aShape.length then Except.error CookError.shapeError
       else Except.ok (t, axes0)) := by
  rw [cook_s_none_eq, htake]
  rfl

theorem cook_none_axes_eval_invreal {aShape axes0 t t2 : List Int} {lastAx v : Int}
    (htake : npTake aShape axes0 = some t)
    (hal : pyGet axes0 (-1) = some lastAx)
    (hv : pyGet aShape lastAx = some v)
    (hset : pySet t (-1) ((v - 1) * 2) = some t2) :
    _cook_nd_args aShape none (some axes0) true =
      (if t2.length ≠ axes0.length then Except.error CookError.shapeError
       else if t2.length > aShape.length then Except.error CookError.shapeError
       else Except.ok (t2, axes0)) := by
  rw [cook_s_none_eq, htake]
  simp only [if_true, hal, hv, hset]
  rfl

theorem pyGet_neg_one_inv {l : List Int} {v : Int} (h : pyGet l (-1) = some v) :
    l.getLast? = some v := by
  have hne : l ≠ [] := by
    intro hc
    subst hc
    simp [pyGet, pyIdx] at h
  rw [← pyGet_neg_one hne]
  exact h

theorem pySet_neg_one_inv {l l2 : List Int} {v : Int}
    (h : pySet l (-1) v = some l2) :
    l2 = l.set (l.length - 1) v ∧ l ≠ [] := by
  obtain ⟨p, hp, rfl⟩ := pySet_some_inv h
  have hlen : 0 < l.length := by
    rcases Nat.eq_zero_or_pos l.length with hz | hpos
    · rw [pyIdx, if_neg (by omega), if_neg (by omega)] at hp
      cases hp
    · exact hpos
  rw [pyIdx_neg_one hlen] at hp
  obtain rfl := Option.some.inj hp
  exact ⟨rfl, by intro hc; rw [hc] at hlen; simp at hlen⟩

/-- Shared success path of `_cook_nd_args` with absent sizes: when every
axis resolves and (for inverse-real) the axes list is nonempty, the
defaulting succeeds and the length checks run on the defaulted sizes. -/
theorem cook_defaulted_ok {aShape axes0 : List Int} {invreal : Bool}
    (hres : ∀ ax ∈ axes0, (pyIdx aShape.length ax).isSome)
    (hne : invreal = true → axes0 ≠ [])
    (hle : axes0.length ≤ aShape.length) :
    ∃ s', _cook_nd_args aShape none (some axes0) invreal = Except.ok (s', axes0) ∧
      s'.length = axes0.length := by
  obtain ⟨t, htake⟩ := npTake_isSome hres
  obtain ⟨hlen, -, -⟩ := npTake_some_spec htake
  cases invreal with
  | false =>
    refine ⟨t, ?_, hlen⟩
    rw [cook_none_axes_eval htake, if_neg (by omega), if_neg (by omega)]
  | true =>
    have haxne : axes0 ≠ [] := hne rfl
    obtain ⟨lastAx, hlastAx⟩ :=
      Option.isSome_iff_exists.mp (List.getLast?_isSome.mpr haxne)
    have hal : pyGet axes0 (-1) = some lastAx := by
      rw [pyGet_neg_one haxne, hlastAx]
    obtain ⟨p, hp⟩ := Option.isSome_iff_exists.mp
      (hres lastAx (List.mem_of_mem_getLast? hlastAx))
    obtain ⟨v, hv⟩ := pyGet_isSome hp
    have htpos : 0 < t.length := by
      rw [hlen]
      exact List.length_pos.mpr haxne
    have hset : pySet t (-1) ((v - 1) * 2)
        = some (t.set (t.length - 1) ((v - 1) * 2)) := by
      rw [pySet, pyIdx_neg_one htpos]
      rfl
    have ht2len : (t.set (t.length - 1) ((v - 1) * 2)).length = axes0.length := by
      rw [List.length_set]
      exact hlen
    refine ⟨t.set (t.length - 1) ((v - 1) * 2), ?_, ht2len⟩
    rw [cook_none_axes_eval_invreal htake hal hv hset,
      if_neg (by omega), if_neg (by omega)]

/-- Claim C6 (amended: the success clause holds provided that, when sizes are
absent, the defaulting of sizes itself succeeds — every axis index must
resolve against the array's rank, and an inverse-real transform needs a
nonempty axes list; an unresolvable axis instead raises an axis error
during defaulting, before the length checks, see the counterexample).
The normalizer raises a shape error whenever the (possibly defaulted)
sizes and axes have different lengths, and whenever their length exceeds
the dimensionality of the array; for inputs passing both checks it returns
the normalized `(sizes, axes)` without error. -/
theorem C6_normalizer_validation :
    (∀ (aShape s axes : List Int) (invreal : Bool),
      s.length ≠ axes.length →
      _cook_nd_args aShape (some s) (some axes) invreal
        = Except.error CookError.shapeError) ∧
    (∀ (aShape s : List Int) (axes? : Option (List Int)) (invreal : Bool),
      (∀ axes, axes? = some axes → s.length = axes.length) →
      s.length > aShape.length →
      _cook_nd_args aShape (some s) axes? invreal
        = Except.error CookError.shapeError) ∧
    (∀ (aShape axes : List Int) (invreal : Bool),
      (∀ ax ∈ axes, (pyIdx aShape.length ax).isSome) →
      (invreal = true → axes ≠ []) →
      axes.length > aShape.length →
      _cook_nd_args aShape none (some axes) invreal
        = Except.error CookError.shapeError) ∧
    (∀ (aShape s axes : List Int) (invreal : Bool),
      s.length = axes.length → s.length ≤ aShape.length →
      _cook_nd_args aShape (some s) (some axes) invreal = Except.ok (s, axes)) ∧
    (∀ (aShape s : List Int) (invreal : Bool),
      s.length ≤ aShape.length →
      _cook_nd_args aShape (some s) none invreal
         = Except.ok (s, rangeNeg s.length)) ∧
    (∀ (aShape axes : List Int) (invreal : Bool),
      (∀ ax ∈ axes, (pyIdx aShape.length ax).isSome) →
      (invreal = true → axes ≠ []) →
      axes.length ≤ aShape.length →
      ∃ s', _cook_nd_args aShape none (some axes) invreal
        = Except.ok (s', axes)) ∧
    (∀ (aShape : List Int) (invreal : Bool),
      (invreal = true → aShape ≠ []) →
      ∃ s', _cook_nd_args aShape none none invreal
        = Except.ok (s', rangeNeg aShape.length)) := by
  refine ⟨?_, ?_, ?_, ?_, ?_, ?_, ?_⟩
  · intro aShape s axes invreal h
    rw [cook_s_given, if_pos h]
  · intro aShape s axes? invreal hlen hgt
    cases axes? with
    | none =>
      rw [cook_s_given_noaxes, if_neg (by rw [rangeNeg_length]; omega),
        if_pos hgt]
    | some axes =>
      rw [cook_s_given, if_neg (by rw [hlen axes rfl]; omega), if_pos hgt]
  · intro aShape axes invreal hres hne hgt
    obtain ⟨t, htake⟩ := npTake_isSome hres
    obtain ⟨hlen, -, -⟩ := npTake_some_spec htake
    cases invreal with
    | false =>
      rw [cook_none_axes_eval htake, if_neg (by omega), if_pos (by omega)]
    | true =>
      have haxne : axes ≠ [] := hne rfl
      obtain ⟨lastAx, hlastAx⟩ :=
        Option.isSome_iff_exists.mp (List.getLast?_isSome.mpr haxne)
      have hal : pyGet axes (-1) = some lastAx := by
        rw [pyGet_neg_one haxne, hlastAx]
      obtain ⟨p, hp⟩ := Option.isSome_iff_exists.mp
        (hres lastAx (List.mem_of_mem_getLast? hlastAx))
      obtain ⟨v, hv⟩ := pyGet_isSome hp
      have htpos : 0 < t.length := by
        rw [hlen]
        exact List.length_pos.mpr haxne
      have hset : pySet t (-1) ((v - 1) * 2)
          = some (t.set (t.length - 1) ((v - 1) * 2)) := by
        rw [pySet, pyIdx_neg_one htpos]
        rfl
      rw [cook_none_axes_eval_invreal htake hal hv hset,
        if_neg (by rw [List.length_set]; omega),
        if_pos (by rw [List.length_set]; omega)]
  · intro aShape s axes invreal hlen hle
    rw [cook_s_given, if_neg (by omega), if_neg (by omega)]
  · intro aShape s invreal hle
    rw [cook_s_given_noaxes, if_neg (by rw [rangeNeg_length]; omega),
      if_neg (by omega)]
  · intro aShape axes invreal hres hne hle
    obtain ⟨s', hok, -⟩ := cook_defaulted_ok hres hne hle
    exact ⟨s', hok⟩
  · intro aShape invreal hne
    rw [cook_none_none_eq]
    have hres := rangeNeg_resolvable (k := aShape.length) (le_refl _)
    have hne2 : invreal = true → rangeNeg aShape.length ≠ [] := by
      intro hi hc
      have := rangeNeg_length aShape.length
      rw [hc] at this
      simp only [List.length_nil] at this
      exact hne hi (List.length_eq_zero.mp this.symm)
    obtain ⟨s', hok, -⟩ := cook_defaulted_ok hres hne2
      (le_of_eq (rangeNeg_length aShape.length))
    exact ⟨s', hok⟩

theorem cook_invreal_set_none {aShape axes0 t : List Int} {lastAx v : Int}
    (htake : npTake aShape axes0 = some t)
    (hal : pyGet axes0 (-1) = some lastAx)
    (hv : pyGet aShape lastAx = some v)
    (hset : pySet t (-1) ((v - 1) * 2) = none) :
    _cook_nd_args aShape none (some axes0) true
      = Except.error CookError.axisError := by
  rw [cook_s_none_eq, htake]
  simp only [if_true, hal, hv, hset]
  rfl

/-- Inversion of a successful `_cook_nd_args` run with absent sizes and
explicit axes: the returned axes are the given ones and the returned sizes
are the take-defaulted ones, with the inverse-real override on the last
entry. -/
theorem cook_s_none_ok_inv {aShape ax0 s' axes' : List Int} {invreal : Bool}
    (hok : _cook_nd_args aShape none (some ax0) invreal
      = Except.ok (s', axes')) :
    axes' = ax0 ∧
    ∃ t, npTake aShape ax0 = some t ∧
      (invreal = false → s' = t) ∧
      (invreal = true → ∃ lastAx v, ax0.getLast? = some lastAx ∧
        pyGet aShape lastAx = some v ∧
        s' = t.set (t.length - 1) ((v - 1) * 2)) := by
  cases htake : npTake aShape ax0 with
  | none =>
    rw [cook_take_none invreal htake] at hok
    cases hok
  | some t =>
    cases invreal with
    | false =>
      rw [cook_none_axes_eval htake] at hok
      split at hok
      · cases hok
      · split at hok
        · cases hok
        · injection hok with hok
          injection hok with h1 h2
          subst h1
          subst h2
          exact ⟨rfl, t, rfl, fun _ => rfl, fun h => nomatch h⟩
    | true =>
      cases hal : pyGet ax0 (-1) with
      | none =>
        rw [cook_invreal_al_none htake hal] at hok
        cases hok
      | some lastAx =>
        cases hv : pyGet aShape lastAx with
        | none =>
          rw [cook_invreal_v_none htake hal hv] at hok
          cases hok
        | some v =>
          cases hset : pySet t (-1) ((v - 1) * 2) with
          | none =>
            rw [cook_invreal_set_none htake hal hv hset] at hok
            cases hok
          | some t2 =>
            rw [cook_none_axes_eval_invreal htake hal hv hset] at hok
            split at hok
            · cases hok
            · split at hok
              · cases hok
              · injection hok with hok
                injection hok with h1 h2
                subst h1
                subst h2
                refine ⟨rfl, t, rfl, ?_, ?_⟩
                · intro h
                  exact nomatch h
                · intro _
                  exact ⟨lastAx, v, pyGet_neg_one_inv hal, hv,
                    (pySet_neg_one_inv hset).1⟩

/-- Claim C5: on every successful normalization, absent axes default to the
last `k` axes as negative indices (`k = len(sizes)` when sizes were given,
`k = ndim` otherwise), and absent sizes are taken from the array's shape
along the resolved axes, with the last entry overridden to
`(array_shape[last_axis] - 1) * 2` for an inverse real transform. -/
theorem C5_normalizer_defaults (aShape : List Int) (s? axes? : Option (List Int))
    (invreal : Bool) (s' axes' : List Int)
    (hok : _cook_nd_args aShape s? axes? invreal = Except.ok (s', axes')) :
    (axes? = none →
      axes'.length = (match s? with
        | some s0 => s0.length
        | none => aShape.length) ∧
      ∀ i : Nat, i < axes'.length →
        axes'[i]? = some ((i : Int) - (axes'.length : Int))) ∧
    (s? = none →
      ∃ t, npTake aShape axes' = some t ∧
        (invreal = false → s' = t) ∧
        (invreal = true → ∃ lastAx v, axes'.getLast? = some lastAx ∧
          pyGet aShape lastAx = some v ∧
          s' = t.set (t.length - 1) ((v - 1) * 2))) := by
  have hrange : ∀ k : Nat, (rangeNeg k).length = k ∧
      (∀ i : Nat, i < (rangeNeg k).length →
        (rangeNeg k)[i]? = some ((i : Int) - ((rangeNeg k).length : Int))) :=
    fun k => ⟨rangeNeg_length k, fun i hi => by
      rw [rangeNeg_length] at hi
      rw [rangeNeg_length]
      exact rangeNeg_getElem k i hi⟩
  cases s? with
  | some s0 =>
    cases axes? with
    | some ax0 =>
      exact ⟨fun hc => Option.noConfusion hc, fun hc => Option.noConfusion hc⟩
    | none =>
      rw [cook_s_given_noaxes] at hok
      split at hok
      · cases hok
      · split at hok
        · cases hok
        · injection hok with hok
          injection hok with h1 h2
          subst h1
          subst h2
          exact ⟨fun _ => hrange s0.length, fun hc => Option.noConfusion hc⟩
  | none =>
    cases axes? with
    | some ax0 =>
      obtain ⟨rfl, hrest⟩ := cook_s_none_ok_inv hok
      exact ⟨fun hc => Option.noConfusion hc, fun _ => hrest⟩
    | none =>
      rw [cook_none_none_eq] at hok
      obtain ⟨rfl, hrest⟩ := cook_s_none_ok_inv hok
      exact ⟨fun _ => hrange aShape.length, fun _ => hrest⟩

/-- Claim C5 witness: the theorem applied to a 2-d array of shape `[5, 9]`
with both sizes and axes absent, for an inverse real transform: axes
default to `[-2, -1]` and sizes to `[5, (9 - 1) * 2] = [5, 16]`. -/
theorem C5_witness :
    _cook_nd_args [5, 9] none none true = Except.ok ([5, 16], [-2, -1]) ∧
    ((none : Option (List Int)) = none →
      ([-2, -1] : List Int).length = ([5, 9] : List Int).length ∧
      ∀ i : Nat, i < ([-2, -1] : List Int).length →
        ([-2, -1] : List Int)[i]? =
          some ((i : Int) - (([-2, -1] : List Int).length : Int))) ∧
    ((none : Option (List Int)) = none →
      ∃ t, npTake [5, 9] [-2, -1] = some t ∧
        (true = false → ([5, 16] : List Int) = t) ∧
        (true = true → ∃ lastAx v, ([-2, -1] : List Int).getLast? = some lastAx ∧
          pyGet [5, 9] lastAx = some v ∧
          ([5, 16] : List Int) = t.set (t.length - 1) ((v - 1) * 2))) := by
  have hok : _cook_nd_args [5, 9] none none true
      = Except.ok ([5, 16], [-2, -1]) := by rfl
  have h := C5_normalizer_defaults [5, 9] none none true [5, 16] [-2, -1] hok
  exact ⟨hok, h.1, h.2⟩

/-- Claim C6 counterexample: `array_shape=[4]`, sizes absent, `axes=[1]`.
Both length checks pass (the defaulted sizes would have length `1 == 1 <= 1`),
yet the normalizer raises the axis IndexError from `numpy.take` during the
defaulting of sizes — not a shape error, and not a successful return. -/
theorem C6_counterexample :
    ([1] : List Int).length ≤ ([4] : List Int).length ∧
    _cook_nd_args [4] none (some [1]) false = Except.error CookError.axisError := by
  constructor
  · decide
  · rfl

/-- Claim C6 witness: the amended theorem applied to concrete inputs — a
length mismatch gives the shape error, and matching in-range parameters
normalize without error. -/
theorem C6_witness :
    _cook_nd_args [4, 4] (some [2]) (some [0, 1]) false
      = Except.error CookError.shapeError ∧
    _cook_nd_args [4, 4] (some [2, 3]) (some [0, 1]) false
      = Except.ok ([2, 3], [0, 1]) :=
  ⟨C6_normalizer_validation.1 [4, 4] [2] [0, 1] false (by decide),
   C6_normalizer_validation.2.2.2.1 [4, 4] [2, 3] [0, 1] false (by decide)
     (by decide)⟩

/-- Claim C7 witness: the theorem applied at concrete inputs — the out-of-range
axis `7` on a rank-2 array raises the axis error; the resolvable negative
axes `[-2, -1]` succeed; and `-1` resolves from the end to index `3` on a
rank-4 axis count. -/
theorem C7_witness :
    _compute_array_shapes [4, 4] [4] [7] false false = none ∧
    (∃ pr, _compute_array_shapes [4, 4] [4, 4] [-2, -1] false false = some pr) ∧
    pyIdx 4 (-1) = some ((4 : Int) + (-1)).toNat :=
  ⟨C7_axis_validity.1 [4, 4] [4] [7] false false ⟨7, by decide, by decide⟩,
   C7_axis_validity.2.1 [4, 4] [4, 4] [-2, -1] false false (by decide)
     (by decide) ⟨-1, by decide, by decide⟩,
   C7_axis_validity.2.2 4 (-1) (by decide) (by decide)⟩

/-- Claim C4: real-to-complex round trip.  For every valid
`(array_shape, sizes, axes)` (equal lengths, resolvable and pairwise
distinct axes, nonempty so a real transform is defined), resolving shapes
for the forward real transform and then resolving for the inverse real
transform with matching parameters — on the forward transform's output
shape — yields the original sizes as the inverse's `output_shape` along
the transformed axes. -/
theorem C4_round_trip (aShape s axes : List Int)
    (hlen : s.length = axes.length)
    (hres : ∀ ax ∈ axes, (pyIdx aShape.length ax).isSome)
    (hnodup : (axes.map (fun ax => pyIdx aShape.length ax)).Nodup)
    (hne : axes ≠ []) :
    ∃ inp out inp2 out2,
      _compute_array_shapes aShape s axes false true = some (inp, out) ∧
      _compute_array_shapes out s axes true true = some (inp2, out2) ∧
      ∀ (k : Nat) (ax : Int) (p : Nat), axes[k]? = some ax →
        pyIdx aShape.length ax = some p → out2[p]? = s[k]? := by
  obtain ⟨inp, out, hfwd, hinplen, houtlen, -, -⟩ :=
    resolveShapes_spec aShape s axes false true hlen hres (fun _ => hne)
  have hres2 : ∀ ax ∈ axes, (pyIdx out.length ax).isSome := by
    intro ax h
    rw [houtlen]
    exact hres ax h
  obtain ⟨orig2, fft2, hA2⟩ := @assignShapes_isSome axes out out s 0
    hres2 hres2 (by omega)
  obtain ⟨ho2, hf2⟩ := assignShapes_length hA2
  have hsne : s ≠ [] := by
    intro hc
    apply hne
    rw [hc] at hlen
    exact List.length_eq_zero.mp hlen.symm
  obtain ⟨lastAx, hlastAx⟩ :=
    Option.isSome_iff_exists.mp (List.getLast?_isSome.mpr hne)
  obtain ⟨sLast, hsLast⟩ :=
    Option.isSome_iff_exists.mp (List.getLast?_isSome.mpr hsne)
  have hal : pyGet axes (-1) = some lastAx := by
    rw [pyGet_neg_one hne, hlastAx]
  have hsl : pyGet s (-1) = some sLast := by
    rw [pyGet_neg_one hsne, hsLast]
  obtain ⟨lastPos, hlastPos⟩ := Option.isSome_iff_exists.mp
    (hres2 lastAx (List.mem_of_mem_getLast? hlastAx))
  have hlpF : pyIdx fft2.length lastAx = some lastPos := by
    rw [hf2]
    exact hlastPos
  have hset := pySet_of_pyIdx (Int.fdiv sLast 2 + 1) hlpF
  have hinv := _compute_array_shapes_real true hA2 hsl hal hset
  refine ⟨inp, out, fft2.set lastPos (Int.fdiv sLast 2 + 1), orig2, hfwd,
    by simpa using hinv, ?_⟩
  intro k ax p hk hp
  have hp2 : pyIdx out.length ax = some p := by
    rw [houtlen]
    exact hp
  have hnodup2 : (axes.map (fun ax => pyIdx out.length ax)).Nodup := by
    simp only [houtlen]
    exact hnodup
  have hget := assignShapes_nodup_get hA2 hnodup2 rfl k ax p hk hp2
  simpa using hget.1

/-- Claim C4 witness: the theorem applied to `array_shape=[6, 10]`,
`sizes=[6, 10]`, `axes=[-2, -1]`: the forward resolve gives output shape
`[6, 6]`, and the inverse resolve on it recovers `10` (and `6`) in its
output shape. -/
theorem C4_witness :
    ∃ inp out inp2 out2,
      _compute_array_shapes [6, 10] [6, 10] [-2, -1] false true
        = some (inp, out) ∧
      _compute_array_shapes out [6, 10] [-2, -1] true true
        = some (inp2, out2) ∧
      ∀ (k : Nat) (ax : Int) (p : Nat), ([-2, -1] : List Int)[k]? = some ax →
        pyIdx ([6, 10] : List Int).length ax = some p →
        out2[p]? = ([6, 10] : List Int)[k]? :=
  C4_round_trip [6, 10] [6, 10] [-2, -1] (by decide) (by decide) (by decide)
    (by decide)

theorem clampIdx_nonneg {x : Int} (m : Int) (hx : 0 ≤ x) :
    clampIdx x m = min x m := by
  unfold clampIdx
  rw [if_neg (by omega)]

theorem sliceExtent_all (m : Int) : sliceExtent Slice.all m = max 0 m := by
  simp only [sliceExtent, sliceBounds]
  omega

theorem sliceExtent_interval_zero {hi : Int} (m : Int) (h0 : 0 ≤ hi) :
    sliceExtent (Slice.interval 0 hi) m = max 0 (min hi m) := by
  simp only [sliceExtent, sliceBounds]
  rw [clampIdx_nonneg m le_rfl, clampIdx_nonneg m h0]
  omega

theorem sliceBounds_interval_zero {hi : Int} (m : Int) (h0 : 0 ≤ hi) :
    sliceBounds (Slice.interval 0 hi) m = (min 0 m, min hi m) := by
  simp only [sliceBounds]
  rw [clampIdx_nonneg m le_rfl, clampIdx_nonneg m h0]

/-- Claim C3: for every pair of equal-rank shapes (of nonnegative entries),
`_setup_input_slicers` succeeds and independently per axis: a larger user
axis truncates the source to `[0, required)` with the dest covering the
full internal axis; a smaller user axis bounds both to `[0, user)`; equal
axes are fully covered on both sides; and in every case the source and
dest extents on that axis are equal. -/
theorem C3_slicer_bounds : ∀ (aShape inputShape : List Int),
    aShape.length = inputShape.length →
    (∀ x ∈ aShape, 0 ≤ x) →
    (∀ x ∈ inputShape, 0 ≤ x) →
    ∃ src dst, _setup_input_slicers aShape inputShape = some (src, dst) ∧
      src.length = aShape.length ∧ dst.length = aShape.length ∧
      ∀ (i : Nat) (a b : Int), aShape[i]? = some a → inputShape[i]? = some b →
        ∃ sl dl, src[i]? = some sl ∧ dst[i]? = some dl ∧
          (a > b → sl = Slice.interval 0 b ∧ dl = Slice.all) ∧
          (a < b → sl = Slice.interval 0 a ∧ dl = Slice.interval 0 a) ∧
          (a = b → sliceBounds sl a = (0, a) ∧ sliceBounds dl b = (0, b)) ∧
          sliceExtent sl a = sliceExtent dl b := by
  intro aShape
  induction aShape with
  | nil =>
    intro inputShape _ _ _
    refine ⟨[], [], rfl, rfl, rfl, ?_⟩
    intro i a b ha _
    simp at ha
  | cons a as ih =>
    intro inputShape hlen hA hB
    cases inputShape with
    | nil => simp at hlen
    | cons b bs =>
      obtain ⟨src0, dst0, hrec, hslen, hdlen, hidx⟩ := ih bs (by simpa using hlen)
        (fun x hx => hA x (List.mem_cons_of_mem a hx))
        (fun x hx => hB x (List.mem_cons_of_mem b hx))
      have ha0 : 0 ≤ a := hA a (List.mem_cons_self a as)
      have hb0 : 0 ≤ b := hB b (List.mem_cons_self b bs)
      rcases lt_trichotomy a b with hab | hab | hab
      · refine ⟨Slice.interval 0 a :: src0, Slice.interval 0 a :: dst0, ?_,
          by simpa using hslen, by simpa using hdlen, ?_⟩
        · simp only [_setup_input_slicers, hrec, Option.bind_eq_bind,
            Option.some_bind]
          rw [if_neg (by omega), if_pos hab]
          rfl
        · intro i a0 b0 ha0' hb0'
          cases i with
          | zero =>
            simp only [List.getElem?_cons_zero] at ha0' hb0' ⊢
            injection ha0' with ha0'
            injection hb0' with hb0'
            subst ha0'
            subst hb0'
            refine ⟨Slice.interval 0 a, Slice.interval 0 a, rfl, rfl,
              fun h => absurd h (by omega), fun _ => ⟨rfl, rfl⟩,
              fun h => absurd h (by omega), ?_⟩
            rw [sliceExtent_interval_zero a ha0, sliceExtent_interval_zero b ha0]
            omega
          | succ i1 =>
            simp only [List.getElem?_cons_succ] at ha0' hb0' ⊢
            exact hidx i1 a0 b0 ha0' hb0'
      · refine ⟨Slice.interval 0 a :: src0, Slice.all :: dst0, ?_,
          by simpa using hslen, by simpa using hdlen, ?_⟩
        · simp only [_setup_input_slicers, hrec, Option.bind_eq_bind,
            Option.some_bind]
          rw [if_neg (by omega), if_neg (by omega)]
          rfl
        · intro i a0 b0 ha0' hb0'
          cases i with
          | zero =>
            simp only [List.getElem?_cons_zero] at ha0' hb0' ⊢
            injection ha0' with ha0'
            injection hb0' with hb0'
            subst ha0'
            subst hb0'
            refine ⟨Slice.interval 0 a, Slice.all, rfl, rfl,
              fun h => absurd h (by omega), fun h => absurd h (by omega),
              fun _ => ?_, ?_⟩
            · constructor
              · rw [sliceBounds_interval_zero a ha0]
                congr 1 <;> omega
              · simp only [sliceBounds]
            · rw [sliceExtent_interval_zero a ha0, sliceExtent_all]
              omega
          | succ i1 =>
            simp only [List.getElem?_cons_succ] at ha0' hb0' ⊢
            exact hidx i1 a0 b0 ha0' hb0'
      · refine ⟨Slice.interval 0 b :: src0, Slice.all :: dst0, ?_,
          by simpa using hslen, by simpa using hdlen, ?_⟩
        · simp only [_setup_input_slicers, hrec, Option.bind_eq_bind,
            Option.some_bind]
          rw [if_pos hab]
          rfl
        · intro i a0 b0 ha0' hb0'
          cases i with
          | zero =>
            simp only [List.getElem?_cons_zero] at ha0' hb0' ⊢
            injection ha0' with ha0'
            injection hb0' with hb0'
            subst ha0'
            subst hb0'
            refine ⟨Slice.interval 0 b, Slice.all, rfl, rfl,
              fun _ => ⟨rfl, rfl⟩, fun h => absurd h (by omega),
              fun h => absurd h (by omega), ?_⟩
            rw [sliceExtent_interval_zero a hb0, sliceExtent_all]
            omega
          | succ i1 =>
            simp only [List.getElem?_cons_succ] at ha0' hb0' ⊢
            exact hidx i1 a0 b0 ha0' hb0'

/-- Claim C3 witness: the theorem applied to `user_shape=[8, 2, 5]` and
`required_input_shape=[4, 2, 7]`, mixing truncation, equality and padding
across the three axes. -/
theorem C3_witness :
    ([8, 2, 5] : List Int).length = ([4, 2, 7] : List Int).length ∧
    (∃ src dst, _setup_input_slicers [8, 2, 5] [4, 2, 7] = some (src, dst) ∧
      src.length = ([8, 2, 5] : List Int).length ∧
      dst.length = ([8, 2, 5] : List Int).length ∧
      ∀ (i : Nat) (a b : Int), ([8, 2, 5] : List Int)[i]? = some a →
        ([4, 2, 7] : List Int)[i]? = some b →
        ∃ sl dl, src[i]? = some sl ∧ dst[i]? = some dl ∧
          (a > b → sl = Slice.interval 0 b ∧ dl = Slice.all) ∧
          (a < b → sl = Slice.interval 0 a ∧ dl = Slice.interval 0 a) ∧
          (a = b → sliceBounds sl a = (0, a) ∧ sliceBounds dl b = (0, b)) ∧
          sliceExtent sl a = sliceExtent dl b) :=
  ⟨by decide,
   C3_slicer_bounds [8, 2, 5] [4, 2, 7] (by decide) (by decide) (by decide)⟩

theorem setup_isSome_of_le : ∀ (aShape inputShape : List Int),
    aShape.length ≤ inputShape.length →
    ∃ pr, _setup_input_slicers aShape inputShape = some pr := by
  intro aShape
  induction aShape with
  | nil => intro inputShape _; exact ⟨([], []), rfl⟩
  | cons a as ih =>
    intro inputShape hle
    cases inputShape with
    | nil => simp at hle
    | cons b bs =>
      obtain ⟨⟨src0, dst0⟩, hrec⟩ := ih bs (by simpa using hle)
      rcases lt_trichotomy a b with hab | hab | hab
      · refine ⟨(Slice.interval 0 a :: src0, Slice.interval 0 a :: dst0), ?_⟩
        simp only [_setup_input_slicers, hrec, Option.bind_eq_bind,
          Option.some_bind]
        rw [if_neg (by omega), if_pos hab]
        rfl
      · refine ⟨(Slice.interval 0 a :: src0, Slice.all :: dst0), ?_⟩
        simp only [_setup_input_slicers, hrec, Option.bind_eq_bind,
          Option.some_bind]
        rw [if_neg (by omega), if_neg (by omega)]
        rfl
      · refine ⟨(Slice.interval 0 b :: src0, Slice.all :: dst0), ?_⟩
        simp only [_setup_input_slicers, hrec, Option.bind_eq_bind,
          Option.some_bind]
        rw [if_pos hab]
        rfl

/-- Claim C8: an unrecognized planner effort is rejected up front — the
adapter constructor returns the configuration error with an empty event
trace, before any shape normalization or resolution has run and whatever
the other arguments are; and on every construction-time error path other
than the `NameError` of the `avoid_copy` bug (i.e. configuration, shape and
axis errors), no buffer-allocation event has occurred. -/
theorem C8_error_atomicity :
    (∀ (aShape : List Int) (s? axes? : Option (List Int)) (eff : String)
        (al av inverse real : Bool),
      eff ∉ _valid_efforts →
      _Xfftn aShape s? axes? eff al av inverse real
        = ([], Except.error XfftnError.configError)) ∧
    (∀ (aShape : List Int) (s? axes? : Option (List Int)) (eff : String)
        (al av inverse real : Bool) (ev : List XEvent) (e : XfftnError),
      _Xfftn aShape s? axes? eff al av inverse real = (ev, Except.error e) →
      e ≠ XfftnError.nameError →
      XEvent.allocOutput ∉ ev ∧ XEvent.allocInput ∉ ev) := by
  constructor
  · intro aShape s? axes? eff al av inverse real hmem
    unfold _Xfftn
    rw [if_neg hmem]
  · intro aShape s? axes? eff al av inverse real ev e h hne
    unfold _Xfftn at h
    by_cases hmem : eff ∈ _valid_efforts
    · rw [if_pos hmem] at h
      cases hcook : _cook_nd_args aShape s? axes? (inverse && real) with
      | error ce =>
        cases ce <;>
          (simp only [hcook] at h
           obtain ⟨h1, -⟩ := Prod.mk.injEq .. ▸ h
           subst h1
           simp)
      | ok pr =>
        obtain ⟨s, axes⟩ := pr
        simp only [hcook] at h
        cases hcomp : _compute_array_shapes aShape s axes inverse real with
        | none =>
          simp only [hcomp] at h
          obtain ⟨h1, -⟩ := Prod.mk.injEq .. ▸ h
          subst h1
          simp
        | some pr2 =>
          obtain ⟨inputShape, outputShape⟩ := pr2
          simp only [hcomp] at h
          by_cases hsh : aShape ≠ inputShape
          · rw [if_pos hsh] at h
            have hlen : inputShape.length = aShape.length :=
              (_compute_array_shapes_length hcomp).1
            obtain ⟨prS, hsetup⟩ :=
              setup_isSome_of_le aShape inputShape (le_of_eq hlen.symm)
            rw [hsetup] at h
            cases hav : av with
            | true =>
              rw [hav] at h
              simp at h
            | false =>
              rw [hav] at h
              simp at h
          · rw [if_neg hsh] at h
            cases hav : av with
            | true =>
              rw [hav] at h
              simp only [if_true] at h
              obtain ⟨-, h2⟩ := Prod.mk.injEq .. ▸ h
              injection h2 with h2
              exact absurd h2.symm hne
            | false =>
              rw [hav] at h
              simp at h
    · rw [if_neg hmem] at h
      obtain ⟨h1, -⟩ := Prod.mk.injEq .. ▸ h
      subst h1
      simp

/-- Claim C8 witness: the theorem applied at concrete inputs — a bogus effort
string is rejected with the config error and an empty trace even alongside
invalid shape arguments, and a length-mismatch shape error (valid effort)
has no allocation event in its trace. -/
theorem C8_witness :
    _Xfftn [4] (some [2]) (some [0, 1]) "FFTW_BOGUS" true false false false
      = ([], Except.error XfftnError.configError) ∧
    (XEvent.allocOutput ∉ ([] : List XEvent) ∧
     XEvent.allocInput ∉ ([] : List XEvent)) :=
  ⟨C8_error_atomicity.1 [4] (some [2]) (some [0, 1]) "FFTW_BOGUS" true false
      false false (by decide),
   C8_error_atomicity.2 [4] (some [2]) (some [0, 1]) "FFTW_ESTIMATE" true false
      false false [] XfftnError.shapeError (by rfl) (by decide)⟩

/-- Claim C1 (code bug): on the matched-shape path with `avoid_copy` set, the
source still executes the unguarded copy-back
`FFTW_object.get_input_array()[:] = a_copy` (line 134), but `a_copy` is
assigned only under `if not avoid_copy:` (line 92), so construction raises
`NameError`/`UnboundLocalError` instead of succeeding — the claimed
"skip the copy-back" behaviour is what the guarded mismatched-shape branch
(lines 116–121) and the spec intend.  This theorem evaluates the model at
the failing input: shape `(4,)` already matches the resolved input shape,
`avoid_copy=True` errors after the plan is built, while the identical call
with `avoid_copy=False` succeeds, snapshots, and copies back. -/
theorem C1_avoid_copy_bug :
    _Xfftn [4] none none "FFTW_ESTIMATE" true true false false
      = ([XEvent.allocOutput, XEvent.buildPlan],
         Except.error XfftnError.nameError) ∧
    _Xfftn [4] none none "FFTW_ESTIMATE" true false false false
      = ([XEvent.snapshotTaken, XEvent.allocOutput, XEvent.buildPlan,
          XEvent.copyBack],
         Except.ok ⟨false, [4], [4], [4], [-1]⟩) := by
  constructor
  · rfl
  · rfl

theorem wrapperCall_some_eq (st : WrapperState) (inp : NDArray)
    (outputArr : Option NDArray) (norm : Bool) :
    wrapperCall st (some inp) outputArr norm =
      (match applySlicers st.fftwArraySlicer st.internalInput,
             applySlicers st.inputArraySlicer inp with
       | some slicedInternal, some slicedInput =>
         if slicedInternal.shape ≠ slicedInput.shape then
           (st, Except.error CallError.invalidInputShape)
         else
           ({ internalInput := copySliced st.internalInput st.fftwArraySlicer
                inp st.inputArraySlicer,
              inputArraySlicer := st.inputArraySlicer,
              fftwArraySlicer := st.fftwArraySlicer },
            Except.ok ⟨none, outputArr, norm⟩)
       | _, _ => (st, Except.error CallError.indexError)) := rfl

theorem wrapperCall_some_some_eq {st : WrapperState} {inp : NDArray}
    (outputArr : Option NDArray) (norm : Bool) {sInt sInp : NDArray}
    (hsi : applySlicers st.fftwArraySlicer st.internalInput = some sInt)
    (hsn : applySlicers st.inputArraySlicer inp = some sInp) :
    wrapperCall st (some inp) outputArr norm =
      (if sInt.shape ≠ sInp.shape then
        (st, Except.error CallError.invalidInputShape)
      else
        ({ internalInput := copySliced st.internalInput st.fftwArraySlicer
             inp st.inputArraySlicer,
           inputArraySlicer := st.inputArraySlicer,
           fftwArraySlicer := st.fftwArraySlicer },
         Except.ok ⟨none, outputArr, norm⟩)) := by
  rw [wrapperCall_some_eq, hsi, hsn]

theorem wrapperCall_slicing_fails {st : WrapperState} {inp : NDArray}
    (outputArr : Option NDArray) (norm : Bool)
    (h : applySlicers st.fftwArraySlicer st.internalInput = none ∨
      applySlicers st.inputArraySlicer inp = none) :
    wrapperCall st (some inp) outputArr norm
      = (st, Except.error CallError.indexError) := by
  rw [wrapperCall_some_eq]
  rcases h with h | h
  · rw [h]
  · rw [h]
    cases applySlicers st.fftwArraySlicer st.internalInput <;> rfl

/-- Claim C9: on every invocation with a new input array, a shape mismatch of
the two sliced regions raises the shape-mismatch error; otherwise the sliced
region of the new input is copied into the internal buffer (entries inside
the dest region take the offset-translated new-input entries, all others are
untouched) and the engine plan is executed with `input_array=None` — the
engine call never receives the new input directly, on any successful path. -/
theorem C9_call_updates_buffer (st : WrapperState) (inp : NDArray)
    (outputArr : Option NDArray) (norm : Bool)
    (slicedInternal slicedInput : NDArray)
    (hsi : applySlicers st.fftwArraySlicer st.internalInput = some slicedInternal)
    (hsn : applySlicers st.inputArraySlicer inp = some slicedInput) :
    (slicedInternal.shape ≠ slicedInput.shape →
      wrapperCall st (some inp) outputArr norm
        = (st, Except.error CallError.invalidInputShape)) ∧
    (slicedInternal.shape = slicedInput.shape →
      ∃ st2 ec, wrapperCall st (some inp) outputArr norm
          = (st2, Except.ok ec) ∧
        ec.forwardedInput = none ∧ ec.outputArg = outputArr ∧
        ec.normaliseIdft = norm ∧
        st2.inputArraySlicer = st.inputArraySlicer ∧
        st2.fftwArraySlicer = st.fftwArraySlicer ∧
        st2.internalInput.shape = st.internalInput.shape ∧
        (∀ idx, inRegion (slicerRegion st.fftwArraySlicer
            st.internalInput.shape) idx = true →
          st2.internalInput.data idx = inp.data
            (List.zipWith (fun (p : (Int × Int) × (Int × Int)) (i : Int) =>
              p.2.1 + (i - p.1.1))
              (List.zip (slicerRegion st.fftwArraySlicer st.internalInput.shape)
                (slicerRegion st.inputArraySlicer inp.shape)) idx)) ∧
        (∀ idx, inRegion (slicerRegion st.fftwArraySlicer
            st.internalInput.shape) idx = false →
          st2.internalInput.data idx = st.internalInput.data idx)) ∧
    (∀ (newInput : Option NDArray) (st2 : WrapperState) (ec : EngineCall),
      wrapperCall st newInput outputArr norm = (st2, Except.ok ec) →
      ec.forwardedInput = none) := by
  refine ⟨?_, ?_, ?_⟩
  · intro hne
    rw [wrapperCall_some_some_eq outputArr norm hsi hsn, if_pos hne]
  · intro heq
    refine ⟨⟨copySliced st.internalInput st.fftwArraySlicer inp
        st.inputArraySlicer, st.inputArraySlicer, st.fftwArraySlicer⟩,
      ⟨none, outputArr, norm⟩, ?_, rfl, rfl, rfl, rfl, rfl, rfl, ?_, ?_⟩
    · rw [wrapperCall_some_some_eq outputArr norm hsi hsn,
        if_neg (fun hc => hc heq)]
    · intro idx hin
      simp only [copySliced]
      rw [if_pos hin]
    · intro idx hout
      simp only [copySliced]
      rw [if_neg (by rw [hout]; exact Bool.false_ne_true)]
  · intro newInput st2 ec h
    cases newInput with
    | none =>
      unfold wrapperCall at h
      obtain ⟨-, h2⟩ := Prod.mk.injEq .. ▸ h
      injection h2 with h2
      rw [← h2]
    | some inp2 =>
      cases h1 : applySlicers st.fftwArraySlicer st.internalInput with
      | none =>
        rw [wrapperCall_slicing_fails outputArr norm (Or.inl h1)] at h
        simp at h
      | some sInt =>
        cases h2 : applySlicers st.inputArraySlicer inp2 with
        | none =>
          rw [wrapperCall_slicing_fails outputArr norm (Or.inr h2)] at h
          simp at h
        | some sInp =>
          rw [wrapperCall_some_some_eq outputArr norm h1 h2] at h
          by_cases hsh : sInt.shape ≠ sInp.shape
          · rw [if_pos hsh] at h
            simp at h
          · rw [if_neg hsh] at h
            obtain ⟨-, h3⟩ := Prod.mk.injEq .. ▸ h
            injection h3 with h3
            rw [← h3]

/-- Claim C10: atomicity of the call-time shape check — whenever the
invocation with a new input raises the shape-mismatch error, the wrapper's
state (in particular its internal input buffer) is returned unchanged,
because the sliced-shape comparison precedes the copy. -/
theorem C10_mismatch_leaves_buffer (st : WrapperState) (inp : NDArray)
    (outputArr : Option NDArray) (norm : Bool)
    (h : (wrapperCall st (some inp) outputArr norm).2
      = Except.error CallError.invalidInputShape) :
    (wrapperCall st (some inp) outputArr norm).1 = st := by
  cases h1 : applySlicers st.fftwArraySlicer st.internalInput with
  | none =>
    rw [wrapperCall_slicing_fails outputArr norm (Or.inl h1)]
  | some sInt =>
    cases h2 : applySlicers st.inputArraySlicer inp with
    | none =>
      rw [wrapperCall_slicing_fails outputArr norm (Or.inr h2)]
    | some sInp =>
      rw [wrapperCall_some_some_eq outputArr norm h1 h2]
      by_cases hsh : sInt.shape ≠ sInp.shape
      · rw [if_pos hsh]
      · rw [wrapperCall_some_some_eq outputArr norm h1 h2, if_neg hsh] at h
        cases h

/-- Claim C9 witness: the theorem applied to a concrete wrapper state (internal
buffer of shape `[2]` holding zeros, full-axis slicers) and a new input of
matching sliced shape holding sevens: the call succeeds, forwards no input
array to the engine, and the internal buffer now holds the copied values. -/
theorem C9_witness :
    ∃ st2 ec,
      wrapperCall ⟨⟨[2], fun _ => 0⟩, [Slice.all], [Slice.all]⟩
          (some ⟨[2], fun _ => 7⟩) none true = (st2, Except.ok ec) ∧
      ec.forwardedInput = none ∧ ec.outputArg = none ∧
      ec.normaliseIdft = true ∧
      st2.inputArraySlicer = [Slice.all] ∧
      st2.fftwArraySlicer = [Slice.all] ∧
      st2.internalInput.shape = [2] ∧
      (∀ idx, inRegion (slicerRegion [Slice.all] [2]) idx = true →
        st2.internalInput.data idx = 7) ∧
      (∀ idx, inRegion (slicerRegion [Slice.all] [2]) idx = false →
        st2.internalInput.data idx = 0) :=
  (C9_call_updates_buffer ⟨⟨[2], fun _ => 0⟩, [Slice.all], [Slice.all]⟩
      ⟨[2], fun _ => 7⟩ none true ⟨[2], fun _ => 0⟩ ⟨[2], fun _ => 7⟩
      rfl rfl).2.1 rfl

/-- Claim C10 witness: the theorem applied to a concrete mismatching call — a
new input whose sliced shape `[3]` disagrees with the internal `[2]` — the
returned state is exactly the original one. -/
theorem C10_witness :
    (wrapperCall ⟨⟨[2], fun _ => 0⟩, [Slice.all], [Slice.all]⟩
        (some ⟨[3], fun _ => 7⟩) none true).1
      = ⟨⟨[2], fun _ => 0⟩, [Slice.all], [Slice.all]⟩ :=
  C10_mismatch_leaves_buffer ⟨⟨[2], fun _ => 0⟩, [Slice.all], [Slice.all]⟩
    ⟨[3], fun _ => 7⟩ none true (by rfl)
